import Mathlib

/-!
Verification of the bespoke logic of a YOLOv5-family model wrapper
repository: a shallow embedding of its checkpoint key-remapping utility
(`update_module_state.py`), its batching transform (`transform.py`), the
path-aggregation forward graph (`path_aggregation_network.py`), the ONNX
export shims (`head_helper.py`) and the TensorRT post-processing
(`y_tensorrt.py`), with theorems settling the specification's claims.

Machine tensors are modelled as shape-plus-contents records over exact
numbers (Int / Rat); Python exceptions are modelled with `Option` /
`Except`; Python attribute lookup is modelled over an explicit attribute
tree.  Definitions come first, theorems after them.
-/

namespace Yolort

/-- Python exceptions raised by the code modelled here. -/
inductive PyErr : Type where
  | valueError : String → PyErr
  | indexError : PyErr
  | keyError : PyErr
  | attributeError : String → PyErr
  | typeError : String → PyErr
  | assertionError : String → PyErr
  | runtimeError : PyErr
deriving DecidableEq

/-!
## Checkpoint module trees (`src/yolort/utils/update_module_state.py`)

A Python module object is modelled as a tree: a flag telling whether the
object is an `nn.Sequential`, a list of named attributes (submodules,
parameters, buffers — in Python these are all objects reachable by
`getattr`), and a list of positionally indexable children (`obj[i]`, as on
`nn.Sequential` / `nn.ModuleList`).
-/

inductive PyObj : Type where
  | mk : Bool → List (String × PyObj) → List PyObj → PyObj

/-- Whether the object is an `nn.Sequential`. -/
def PyObj.isSeq : PyObj → Bool
  | .mk b _ _ => b

/-- The named attributes of the object. -/
def PyObj.attrs : PyObj → List (String × PyObj)
  | .mk _ a _ => a

/-- The positionally indexable children of the object. -/
def PyObj.items : PyObj → List PyObj
  | .mk _ _ i => i

/-- First-match association lookup (Python attribute dictionary lookup). -/
def lookupStr {α : Type} : List (String × α) → String → Option α
  | [], _ => none
  | (k, v) :: rest, s => if k = s then some v else lookupStr rest s

/-- `getattr(obj, name)` without a default: `some` the attribute's value,
`none` when the lookup raises `AttributeError`. -/
def getattrOpt (o : PyObj) (s : String) : Option PyObj :=
  lookupStr o.attrs s

/-- `rgetattr(obj, attr)` of `update_module_state.py` called without a
default: `reduce(_getattr, [obj] + attr)`, i.e. a left fold of plain
`getattr` starting from `obj`; the first missing attribute raises. -/
def rgetattr (obj : PyObj) (attr : List String) : Option PyObj :=
  attr.foldl (fun acc s => acc.bind (fun o => getattrOpt o s)) (some obj)

/-- Successive attribute lookup along a path: `Resolves o path v` holds when
starting from `o` and looking each path segment up in turn reaches `v`. -/
inductive Resolves : PyObj → List String → PyObj → Prop where
  | nil (o : PyObj) : Resolves o [] o
  | cons {o o' v : PyObj} {s : String} {rest : List String} :
      getattrOpt o s = some o' → Resolves o' rest v → Resolves o (s :: rest) v

/-- Some path segment is absent on the object reached so far: the path splits
as `done ++ s :: rest` where `done` resolves from `o` to some `o'` on which
segment `s` is absent. -/
def FailsAlong (o : PyObj) (attr : List String) : Prop :=
  ∃ done s rest o', attr = done ++ s :: rest ∧ Resolves o done o' ∧
    getattrOpt o' s = none

/-!
## Name splitting and integer parsing

`name.split(".")` and `int(segment)` from `update_module_state.py`,
modelled structurally over the string's characters so they evaluate by
kernel reduction.  `int` is modelled for the non-negative digit strings the
remapper feeds it (module-sequence positions); any other string raises.
-/

/-- Split a character list at `.` separators (Python `str.split(".")` for
the single-character separator: the result is never empty, and an empty
string splits to one empty segment). -/
def splitDotChars : List Char → List (List Char)
  | [] => [[]]
  | c :: rest =>
    if c = '.' then [] :: splitDotChars rest
    else
      match splitDotChars rest with
      | [] => [[c]]
      | g :: gs => (c :: g) :: gs

/-- `name.split(".")`. -/
def splitDot (s : String) : List String :=
  (splitDotChars s.toList).map (fun cs => String.mk cs)

/-- `int(s)` restricted to non-empty all-digit strings (the only shape the
remapper feeds it); anything else raises `ValueError` (`none`). -/
def pyInt (s : String) : Option Nat :=
  match s.toList with
  | [] => none
  | cs =>
    if cs.all (fun c => decide ('0' ≤ c) && decide (c ≤ '9')) then
      some (cs.foldl (fun a c => a * 10 + (c.toNat - 48)) 0)
    else none

/-!
## The checkpoint key-remapping utility (`ModuleStateUpdate`)
-/

/-- `obtain_module_sequential`: unwrap `.model` attributes until an
`nn.Sequential` is reached; a missing `.model` attribute raises. -/
def obtain_module_sequential (state_dict : PyObj) : Option PyObj :=
  if state_dict.isSeq then some state_dict
  else
    match h : getattrOpt state_dict "model" with
    | some inner => obtain_module_sequential inner
    | none => none
termination_by sizeOf state_dict
decreasing_by
  cases state_dict with
  | mk b a i =>
    have key : ∀ (l : List (String × PyObj)) (x : PyObj),
        lookupStr l "model" = some x → sizeOf x < sizeOf l := by
      intro l x hx
      induction l with
      | nil => simp [lookupStr] at hx
      | cons p rest ih =>
        obtain ⟨k, w⟩ := p
        simp only [lookupStr] at hx
        by_cases hk : k = "model"
        · rw [if_pos hk] at hx
          obtain rfl := Option.some_inj.mp hx
          simp only [List.cons.sizeOf_spec, Prod.mk.sizeOf_spec]
          omega
        · rw [if_neg hk] at hx
          have := ih hx
          simp only [List.cons.sizeOf_spec]
          omega
    simp only [getattrOpt, PyObj.attrs] at h
    have hlt := key a inner h
    simp only [PyObj.mk.sizeOf_spec]
    omega

/-- `ModuleStateUpdate.attach_parameters_block`: split the dotted name, remap
the first segment to a module-sequence position (through `block_maps` when
given, by `int` directly otherwise), then resolve the remaining segments by
`rgetattr` on the module at that position. -/
def attach_parameters_block (state_dict : PyObj) (name : String)
    (block_maps : Option (List (String × String))) : Option PyObj :=
  let keys := splitDot name
  let ind : Option Nat :=
    match block_maps with
    | some maps => (lookupStr maps (keys.headD "")).bind pyInt
    | none => pyInt (keys.headD "")
  ind.bind (fun i =>
    (state_dict.items.get? i).bind (fun o => rgetattr o keys.tail))

/-- `ModuleStateUpdate.attach_parameters_heads`: the head parameter name's
second dotted segment indexes the list attribute `head_name` of the module at
position `head_ind`; the remaining segments are resolved by `rgetattr`. -/
def attach_parameters_heads (head_ind : Nat) (head_name : String)
    (state_dict : PyObj) (name : String) : Option PyObj :=
  let keys := splitDot name
  ((keys.get? 1).bind pyInt).bind (fun i =>
    (state_dict.items.get? head_ind).bind (fun hd =>
      (getattrOpt hd head_name).bind (fun m =>
        (m.items.get? i).bind (fun o => rgetattr o (keys.drop 2)))))

/-- The named parameters and named buffers of the target model's four
regions (`backbone.body`, `backbone.pan.inner_blocks`,
`backbone.pan.layer_blocks`, `head`), each an association of parameter name
to current tensor value. -/
structure ModelParams : Type where
  body_params : List (String × PyObj)
  body_buffers : List (String × PyObj)
  inner_params : List (String × PyObj)
  inner_buffers : List (String × PyObj)
  layer_params : List (String × PyObj)
  layer_buffers : List (String × PyObj)
  head_params : List (String × PyObj)
  head_buffers : List (String × PyObj)

/-- The fields of a `ModuleStateUpdate` instance used by `updating`. -/
structure MSU : Type where
  inner_block_maps : List (String × String)
  layer_block_maps : List (String × String)
  head_ind : Nat
  head_name : String
  model : ModelParams

/-- One `for name, params in ...named_parameters(): params.data.copy_(f(name))`
loop: every entry's value is overwritten with the looked-up source value; the
first failed lookup raises. -/
def updRegion (f : String → Option PyObj) :
    List (String × PyObj) → Option (List (String × PyObj))
  | [] => some []
  | (n, _) :: rest =>
    match f n, updRegion f rest with
    | some v, some r => some ((n, v) :: r)
    | _, _ => none

/-- `ModuleStateUpdate.updating`: obtain the checkpoint's module sequence,
then overwrite, in order, the backbone-body, PAN inner-block, PAN
layer-block and head parameters and buffers of the target model with the
remapped checkpoint values. -/
def ModuleStateUpdate.updating (msu : MSU) (state_dict : PyObj) :
    Option ModelParams :=
  (obtain_module_sequential state_dict).bind fun sd =>
  (updRegion (fun n => attach_parameters_block sd n none)
    msu.model.body_params).bind fun bp =>
  (updRegion (fun n => attach_parameters_block sd n none)
    msu.model.body_buffers).bind fun bb =>
  (updRegion (fun n => attach_parameters_block sd n (some msu.inner_block_maps))
    msu.model.inner_params).bind fun ip =>
  (updRegion (fun n => attach_parameters_block sd n (some msu.inner_block_maps))
    msu.model.inner_buffers).bind fun ib =>
  (updRegion (fun n => attach_parameters_block sd n (some msu.layer_block_maps))
    msu.model.layer_params).bind fun lp =>
  (updRegion (fun n => attach_parameters_block sd n (some msu.layer_block_maps))
    msu.model.layer_buffers).bind fun lb =>
  (updRegion (fun n => attach_parameters_heads msu.head_ind msu.head_name sd n)
    msu.model.head_params).bind fun hp =>
  (updRegion (fun n => attach_parameters_heads msu.head_ind msu.head_name sd n)
    msu.model.head_buffers).bind fun hb =>
  some ⟨bp, bb, ip, ib, lp, lb, hp, hb⟩

/-- The state `updating` runs in: the source checkpoint's module tree and
the target model's parameters and buffers. -/
structure MSUState : Type where
  msu : MSU
  checkpoint : PyObj

/-- `ModuleStateUpdate.updating` as a transformer of the whole state: the
model's parameters and buffers are replaced by the remapped checkpoint
values, and the checkpoint component carries over unchanged — the
procedure's only writes are `copy_` calls into `self.model`'s parameters
and buffers; `state_dict` is only read. -/
def ModuleStateUpdate.updatingState (s : MSUState) : Option MSUState :=
  (ModuleStateUpdate.updating s.msu s.checkpoint).map
    (fun m => ⟨⟨s.msu.inner_block_maps, s.msu.layer_block_maps,
      s.msu.head_ind, s.msu.head_name, m⟩, s.checkpoint⟩)

/-!
## `load_from_ultralytics` (`src/yolort/utils/update_module_state.py`)

Only the logic the claims are about is concrete here: the version assertion
(the function's first statement) and its ordering before the checkpoint
file is read.  The upstream checkpoint loader (`load_yolov5_model`, from
`yolort.v5`) and the assembly of the returned dictionary are external
collaborators, abstracted as parameters; the effect trace records when the
checkpoint file is read.
-/

/-- Observable effects of `load_from_ultralytics`. -/
inductive Effect : Type where
  | readCheckpoint : String → Effect
deriving DecidableEq

/-- `load_from_ultralytics(checkpoint_path, version)`: assert the version is
one of `r3.1`, `r4.0`, `r6.0` (raising `AssertionError` with the source's
message otherwise), then read the checkpoint and build the result. -/
def load_from_ultralytics {C R : Type} (load_yolov5_model : String → C)
    (build_result : C → R) (checkpoint_path : String) (version : String) :
    Except PyErr R × List Effect :=
  if version = "r3.1" ∨ version = "r4.0" ∨ version = "r6.0" then
    let checkpoint_yolov5 := load_yolov5_model checkpoint_path
    (.ok (build_result checkpoint_yolov5), [.readCheckpoint checkpoint_path])
  else
    (.error (.assertionError "Currently does not support this version."), [])

/-!
## A concrete checkpoint and model for the witnesses

A module sequence of 25 positions (`head_ind = 24`): positions `0`–`23`
hold a module with a `weight` attribute, position `24` holds the detection
head whose `m` attribute is an indexable list of one module.
-/

/-- A leaf tensor object of the concrete checkpoint. -/
def leafW : PyObj := .mk false [] []

/-- A module holding one parameter attribute `weight`. -/
def modW : PyObj := .mk false [("weight", leafW)] []

/-- The detection-head module: attribute `m` is an indexable list of one
module with a `weight`. -/
def headW : PyObj := .mk false [("m", .mk false [] [modW])] []

/-- The checkpoint's module sequence. -/
def seqW : PyObj := .mk true [] (List.replicate 24 modW ++ [headW])

/-- The wrapped checkpoint: not a `Sequential`, its `model` attribute is. -/
def cpW : PyObj := .mk false [("model", seqW)] []

/-- A stale value in the target model before updating. -/
def staleW : PyObj := .mk false [("stale", leafW)] []

/-- The target model's named parameters and buffers for the witnesses. -/
def modelW : ModelParams :=
  ⟨[("0.weight", staleW)], [], [("0.weight", staleW)], [], [("0.weight", staleW)],
    [], [("m.0.weight", staleW)], []⟩

/-- The `ModuleStateUpdate` instance for the witnesses: the r6.0 non-P6
block maps of the source, `head_ind = 24`, `head_name = "m"`. -/
def msuW : MSU :=
  ⟨[("0", "9"), ("1", "10"), ("3", "13"), ("4", "14")],
    [("0", "17"), ("1", "18"), ("2", "20"), ("3", "21"), ("4", "23")],
    24, "m", modelW⟩

/-- The model after `updating` on the concrete instance: every region's
value is the checkpoint's `weight` leaf. -/
def modelW' : ModelParams :=
  ⟨[("0.weight", leafW)], [], [("0.weight", leafW)], [], [("0.weight", leafW)],
    [], [("m.0.weight", leafW)], []⟩

/-!
## The batching transform (`src/yolort/models/transform.py`)

An image tensor is a shape (list of dimension sizes) together with total
contents indexed by coordinate lists; for a 3-d image the shape is
`[channels, height, width]`.
-/

structure PyTensor : Type where
  shape : List Nat
  data : List Nat → Int

/-- One step of `max_by_axis`'s inner loop over one sublist:
`maxes[index] = max(maxes[index], item)` for each index of the sublist; an
index beyond `maxes` raises `IndexError`. -/
def upd_maxes (maxes sub : List Nat) : Except PyErr (List Nat) :=
  if sub.length ≤ maxes.length then
    .ok (List.zipWith max maxes sub ++ maxes.drop sub.length)
  else .error .indexError

/-- `YOLOTransform.max_by_axis`: start from the first sublist and fold the
elementwise maximum over the rest (`the_list[0]` is aliased and updated in
place in the source; the result is the same). -/
def max_by_axis : List (List Nat) → Except PyErr (List Nat)
  | [] => .error .indexError
  | m :: rest => rest.foldlM upd_maxes m

/-- `int(math.ceil(float(m) / stride) * stride)`: the least multiple of
`stride` at least `m` (the float arithmetic is exact at these magnitudes). -/
def ceil_mult (m stride : Nat) : Nat := ((m + stride - 1) / stride) * stride

/-- `tensor_list[0].new_full(batch_shape, fill_color)`. -/
def new_full (shape : List Nat) (fill : Int) : PyTensor :=
  ⟨shape, fun _ => fill⟩

/-- `pad_img[: img.shape[0], : img.shape[1], : img.shape[2]].copy_(img)`
where `pad_img` is batch slice `i` of `dst`. -/
def copy_into (dst : PyTensor) (i : Nat) (img : PyTensor) : PyTensor :=
  ⟨dst.shape, fun idx =>
    match idx with
    | [j, a, b, c] =>
      if j = i ∧ a < img.shape.getD 0 0 ∧ b < img.shape.getD 1 0 ∧
          c < img.shape.getD 2 0 then
        img.data [a, b, c]
      else dst.data idx
    | _ => dst.data idx⟩

/-- `YOLOTransform.batch_images` outside ONNX tracing: on an empty list,
`tensor_list[0]` raises `IndexError`; on a first tensor that is not 3-d the
source's own `raise ValueError("not supported")` fires; otherwise the
per-axis maxima are taken, axes 1 and 2 are rounded up to multiples of
`size_divisible`, a fill tensor of shape `[N] + max_size` is allocated, and
each image is copied into the top-left corner of its batch slice (a non-3-d
later image makes the framework raise inside the loop: `img.shape[2]`
raises `IndexError` below 3 dimensions, `copy_` a `RuntimeError` above). -/
def batch_images (tensor_list : List PyTensor) (size_divisible : Nat)
    (fill_color : Int) : Except PyErr PyTensor :=
  match tensor_list with
  | [] => .error .indexError
  | t0 :: _ =>
    if t0.shape.length = 3 then
      (max_by_axis (tensor_list.map PyTensor.shape)).bind fun ms =>
        let max_size := [ms.getD 0 0, ceil_mult (ms.getD 1 0) size_divisible,
          ceil_mult (ms.getD 2 0) size_divisible]
        let batch_shape := tensor_list.length :: max_size
        tensor_list.enum.foldlM
          (fun acc p =>
            if p.2.shape.length < 3 then Except.error PyErr.indexError
            else if p.2.shape.length = 3 then
              Except.ok (copy_into acc p.1 p.2)
            else Except.error PyErr.runtimeError)
          (new_full batch_shape fill_color)
    else .error (.valueError "not supported")

/-- The per-axis maximum of the images' sizes at axis `k` (`0` over an
empty axis list). -/
def maxAxis (l : List PyTensor) (k : Nat) : Nat :=
  (l.map (fun t => t.shape.getD k 0)).foldl max 0

/-- `v` is the least multiple of `sd` that is at least `m`. -/
def IsLeastMultipleGe (sd m v : Nat) : Prop :=
  sd ∣ v ∧ m ≤ v ∧ ∀ w, sd ∣ w → m ≤ w → v ≤ w

/-!
## PathAggregationNetwork (`src/models/path_aggregation_network.py`)

The constructor's block modules (`BottleneckCSP` — the default `block` —
`Conv`, `nn.Upsample`) are recorded as specifications with their channel
arguments; their tensor semantics belong to the host framework.  `forward`
is transcribed over an abstract tensor type with the blocks as functions
and `torch.cat(·, dim=1)` as an abstract binary operation.
-/

inductive BlockSpec : Type where
  | bottleneck_csp : Nat → Nat → BlockSpec
  | conv : Nat → Nat → Nat → Nat → BlockSpec
  | upsample : BlockSpec
deriving DecidableEq

/-- `PathAggregationNetwork.__init__` with the default block: asserts
`len(in_channels_list) == 3`, then builds the six `inner_blocks` and the
five `layer_blocks`. -/
def pan_init (in_channels_list : List Nat) :
    Except PyErr (List BlockSpec × List BlockSpec) :=
  if in_channels_list.length = 3 then
    let c0 := in_channels_list.getD 0 0
    let c1 := in_channels_list.getD 1 0
    let c2 := in_channels_list.getD 2 0
    .ok ([.bottleneck_csp c2 c2, .conv c2 c1 1 1, .upsample,
        .bottleneck_csp c2 c1, .conv c1 c0 1 1, .upsample],
      [.bottleneck_csp c1 c0, .conv c0 c0 3 2, .bottleneck_csp c1 c1,
        .conv c1 c1 3 2, .bottleneck_csp c2 c2])
  else .error (.assertionError "currently only support length 3.")

/-- `module_list[i]`: a missing index raises `IndexError`. -/
def getf {T : Type} (l : List (T → T)) (i : Nat) : Except PyErr (T → T) :=
  match l.get? i with
  | some f => .ok f
  | none => .error .indexError

/-- `values[i]`: a missing index raises `IndexError`. -/
def geti {T : Type} (l : List T) (i : Nat) : Except PyErr T :=
  match l.get? i with
  | some t => .ok t
  | none => .error .indexError

/-- The ascending loop of `PathAggregationNetwork.forward`:
`for idx in range(len(inners) - 1)` applies `layer_blocks[2*idx + 1]`,
concatenates with `inners[idx + 1]`, applies `layer_blocks[2*idx + 2]` and
appends the result to `results`. -/
def pan_ascend {T : Type} (cat : T → T → T) (lbs : List (T → T))
    (inners : List T) : List Nat → T → List T → Except PyErr (List T)
  | [], _, results => .ok results
  | idx :: rest, last, results =>
    (getf lbs (2 * idx + 1)).bind fun g1 =>
      let last1 := g1 last
      (geti inners (idx + 1)).bind fun inn =>
        let last2 := cat last1 inn
        (getf lbs (2 * idx + 2)).bind fun g2 =>
          let last3 := g2 last2
          pan_ascend cat lbs inners rest last3 (results ++ [last3])

/-- `PathAggregationNetwork.forward` on the list of the input dictionary's
values: the descending pass builds `inners = [l8, l6, l2]`, then the
ascending pass produces the three results. -/
def pan_forward {T : Type} (cat : T → T → T) (ibs lbs : List (T → T))
    (x : List T) : Except PyErr (List T) :=
  (getf ibs 0).bind fun f0 =>
  (geti x 2).bind fun x2 =>
  let l1 := f0 x2
  (getf ibs 1).bind fun f1 =>
  let l2 := f1 l1
  (getf ibs 2).bind fun f2 =>
  let l3 := f2 l2
  (geti x 1).bind fun x1 =>
  let l4 := cat l3 x1
  (getf ibs 3).bind fun f3 =>
  let l5 := f3 l4
  (getf ibs 4).bind fun f4 =>
  let l6 := f4 l5
  (getf ibs 5).bind fun f5 =>
  let l7 := f5 l6
  (geti x 0).bind fun x0 =>
  let l8 := cat l7 x0
  let inners := [l8, l6, l2]
  (getf lbs 0).bind fun g0 =>
  (geti inners 0).bind fun i0 =>
  let r0 := g0 i0
  pan_ascend cat lbs inners (List.range (inners.length - 1)) r0 [r0]

/-!
## ONNX export shims (`src/yolort/relay/head_helper.py`)
-/

/-- A rational-valued tensor: shape plus contents. -/
structure QTensor : Type where
  shape : List Nat
  data : List Nat → Rat

/-- `NonMaxSupressionOp.forward`: draws `num_det = random.randint(0, 100)`,
`batches = torch.randint(0, batch, (num_det,)).sort()[0]` and
`idxs = torch.arange(100, 100 + num_det)`, and stacks the columns
`(batches, zeros, idxs)` into the selected-index rows.  The random
generator is modelled explicitly: a state type `S` with the two sampling
primitives passed in.  Only `scores.shape[0]` is read from the tensor
arguments; the numeric contents of `boxes` and `scores` and the three
threshold tensors are never touched. -/
def NonMaxSupressionOp.forward {S : Type}
    (pyRandint : S → Nat → Nat → Nat × S)
    (torchRandint : S → Nat → Nat → Nat → List Nat × S)
    (s : S) (boxes scores max_output_boxes_per_class iou_threshold
      score_threshold : QTensor) :
    List (Nat × Nat × Nat) × S :=
  let batch := scores.shape.headD 0
  let p1 := pyRandint s 0 100
  let num_det := p1.1
  let p2 := torchRandint p1.2 0 batch num_det
  let batches := List.insertionSort (fun a b => a ≤ b) p2.1
  let idxs := List.range' 100 num_det
  let selected_indices := List.zipWith (fun b i => (b, 0, i)) batches idxs
  (selected_indices, p2.2)

/-!
## `FakePostProcess` (`src/yolort/relay/head_helper.py`)

`__init__` stores `detections_per_img`, `iou_threshold`, `score_threshold`,
`size` and `convert_matrix` on the instance; `forward` is transcribed
statement by statement over an abstract tensor semantics, with Python
attribute lookup and calls made explicit where they fail.
-/

structure FakePostProcess : Type where
  detections_per_img : Nat
  iou_threshold : Rat
  score_threshold : Rat
  size : Nat
  convert_matrix : List (List Rat)

/-- `FakePostProcess.__init__(size, iou_thresh, score_thresh,
detections_per_img)`: note it stores the thresholds under the attribute
names `iou_threshold` and `score_threshold`. -/
def FakePostProcess.init (size : Nat) (iou_thresh score_thresh : Rat)
    (detections_per_img : Nat) : FakePostProcess :=
  ⟨detections_per_img, iou_thresh, score_thresh, size,
    [[1, 0, 1, 0], [0, 1, 0, 1], [-1/2, 0, 1/2, 0], [0, -1/2, 0, 1/2]]⟩

/-- A value read off the instance by attribute lookup. -/
inductive FPVal : Type where
  | nat : Nat → FPVal
  | rat : Rat → FPVal
  | matrix : List (List Rat) → FPVal

/-- Python attribute lookup on a `FakePostProcess` instance: exactly the
attributes `__init__` stored exist (`nn.Module.__getattr__` raises
`AttributeError` for anything else) — in particular `iou_thresh` and
`score_thresh` do not exist. -/
def FakePostProcess.getattro (s : FakePostProcess) (name : String) :
    Except PyErr FPVal :=
  if name = "detections_per_img" then .ok (.nat s.detections_per_img)
  else if name = "iou_threshold" then .ok (.rat s.iou_threshold)
  else if name = "score_threshold" then .ok (.rat s.score_threshold)
  else if name = "size" then .ok (.nat s.size)
  else if name = "convert_matrix" then .ok (.matrix s.convert_matrix)
  else .error (.attributeError name)

/-- A Python attribute value together with whether it is callable. -/
structure PyAttr : Type where
  callable : Bool

/-- Attribute lookup on a tensor as `forward` uses it: `x.device` exists
and holds a `torch.device` value, which is not callable. -/
def tensorAttr (name : String) : Except PyErr PyAttr :=
  if name = "device" then .ok ⟨false⟩
  else .error (.attributeError name)

/-- A Python call of a possibly non-callable value. -/
def pyCall (v : PyAttr) : Except PyErr Unit :=
  if v.callable then .ok ()
  else .error (.typeError "torch.device object is not callable")

/-- The tensor operations `FakePostProcess.forward` invokes, abstract over
any tensor semantics `T` (they belong to the host framework). -/
structure TensorOps (T : Type) : Type where
  slice_box : T → T
  slice_conf : T → T
  slice_score : T → T
  mul : T → T → T
  matmul : T → T → T
  max2 : T → T × T
  to_float : T → T
  mul_val : T → FPVal → T
  add : T → T → T
  transpose_contig : T → T
  of_val : FPVal → T
  nms_apply : T → T → T → T → T → T
  col0 : T → T
  col2 : T → T
  index2 : T → T → T → T
  unsqueeze1 : T → T
  concat1 : List T → T

/-- `FakePostProcess.forward` transcribed statement by statement; errors
propagate in Python statement order: `device = x.device()` comes first,
the reads of `self.iou_thresh` and `self.score_thresh` come after the box
and score arithmetic, and the `return` is last. -/
def FakePostProcess.forward {T : Type} (ops : TensorOps T)
    (s : FakePostProcess) (x : T) : Except PyErr T :=
  (tensorAttr "device").bind fun deviceAttr =>
  (pyCall deviceAttr).bind fun _ =>
  let box := ops.slice_box x
  let conf := ops.slice_conf x
  let score0 := ops.slice_score x
  let score := ops.mul score0 conf
  (s.getattro "convert_matrix").bind fun cm =>
  let convert_matrix := ops.of_val cm
  let box2 := ops.matmul box convert_matrix
  let mm := ops.max2 score
  let obj_scores := mm.1
  let obj_classes := mm.2
  (s.getattro "size").bind fun sz =>
  let dis := ops.mul_val (ops.to_float obj_classes) sz
  let rel_boxes := ops.add box2 dis
  let obj_scores_t := ops.transpose_contig obj_scores
  (s.getattro "detections_per_img").bind fun dpi =>
  let detections_per_img := ops.of_val dpi
  (s.getattro "iou_thresh").bind fun iouv =>
  let iou_threshold := ops.of_val iouv
  (s.getattro "score_thresh").bind fun scv =>
  let score_threshold := ops.of_val scv
  let selected_indices := ops.nms_apply rel_boxes obj_scores_t
    detections_per_img iou_threshold score_threshold
  let bigX := ops.col0 selected_indices
  let bigY := ops.col2 selected_indices
  let res_boxes := ops.index2 box2 bigX bigY
  let res_classes := ops.index2 obj_classes bigX bigY
  let res_scores := ops.index2 obj_scores bigX bigY
  let bigX2 := ops.to_float (ops.unsqueeze1 bigX)
  let res_classes2 := ops.to_float res_classes
  .ok (ops.concat1 [bigX2, res_boxes, res_classes2, res_scores])

/-!
## TensorRT post-processing (`src/yolort/runtime/y_tensorrt.py`)

`PredictorTRT.postprocessing` over exact rational tensors; the external
`torchvision` collaborators (`box_convert`, `batched_nms`) are modelled
from their documented semantics.
-/

/-- An axis-aligned box `(x1, y1, x2, y2)`. -/
structure Box : Type where
  x1 : Rat
  y1 : Rat
  x2 : Rat
  y2 : Rat
deriving DecidableEq

/-- `torchvision.ops.box_convert(·, in_fmt="cxcywh", out_fmt="xyxy")` on
one row. -/
def box_cxcywh_to_xyxy (cx cy w h : Rat) : Box :=
  ⟨cx - w / 2, cy - h / 2, cx + w / 2, cy + h / 2⟩

/-- Box area. -/
def Box.area (b : Box) : Rat := (b.x2 - b.x1) * (b.y2 - b.y1)

/-- Intersection-over-union in exact rationals (a degenerate union divides
zero by zero, which is `0` by rational convention, as good as any model of
the float `nan`). -/
def iou (a b : Box) : Rat :=
  let iw := max (min a.x2 b.x2 - max a.x1 b.x1) 0
  let ih := max (min a.y2 b.y2 - max a.y1 b.y1) 0
  let inter := iw * ih
  inter / (Box.area a + Box.area b - inter)

/-- `PredictorTRT._decode_pred_logits` on one image's logits: per anchor
row the scores are the class columns (from column 5 on) scaled by the
objectness column 4, and the box columns 0–3 are converted from `cxcywh`
to `xyxy`. -/
def decode_pred_logits (pred_logits : List (List Rat)) :
    List Box × List (List Rat) :=
  (pred_logits.map (fun r =>
      box_cxcywh_to_xyxy (r.getD 0 0) (r.getD 1 0) (r.getD 2 0) (r.getD 3 0)),
    pred_logits.map (fun r => (r.drop 5).map (fun c => c * r.getD 4 0)))

/-- `torch.where(scores > score_thresh)` in row-major order: the (anchor,
class) index of every score strictly above the threshold. -/
def whereGT (scores : List (List Rat)) (t : Rat) : List (Nat × Nat) :=
  (scores.enum.map (fun p =>
    p.2.enum.filterMap (fun q =>
      if t < q.2 then some (p.1, q.1) else none))).flatten

/-- The suppression test of greedy NMS: a candidate survives against the
already-kept boxes when every kept box of the same label overlaps it by at
most the threshold. -/
def nms_ok (boxes : List Box) (labels : List Nat) (iou_threshold : Rat)
    (kept : List Nat) (i : Nat) : Bool :=
  kept.all (fun j => decide (labels.getD j 0 ≠ labels.getD i 0 ∨
    iou (boxes.getD j ⟨0, 0, 0, 0⟩) (boxes.getD i ⟨0, 0, 0, 0⟩) ≤
      iou_threshold))

/-- The candidate indices in decreasing score order (`torch` sorts scores
descending before suppression). -/
def nms_order (scores : List Rat) (n : Nat) : List Nat :=
  List.insertionSort (fun i j => scores.getD j 0 ≤ scores.getD i 0)
    (List.range n)

/-- `torchvision.ops.boxes.batched_nms` by its documented semantics:
greedy non-maximum suppression in decreasing score order, suppressing only
against kept boxes of the same label (the implementation offsets boxes per
label so boxes of different labels never suppress each other); the kept
indices come out in decreasing score order. -/
def batched_nms (boxes : List Box) (scores : List Rat) (labels : List Nat)
    (iou_threshold : Rat) : List Nat :=
  (nms_order scores boxes.length).foldl (fun kept i =>
    if nms_ok boxes labels iou_threshold kept i then kept ++ [i] else kept) []

/-- One image's detections: parallel score / label / box lists. -/
structure Detections : Type where
  scores : List Rat
  labels : List Nat
  boxes : List Box

/-- The decoded box list of one image. -/
def decoded_boxes (pl : List (List Rat)) : List Box :=
  (decode_pred_logits pl).1

/-- The decoded per-anchor class-score rows of one image. -/
def decoded_scores (pl : List (List Rat)) : List (List Rat) :=
  (decode_pred_logits pl).2

/-- `inds, labels = torch.where(scores > self.score_thresh)`. -/
def cand_pairs (score_thresh : Rat) (pl : List (List Rat)) :
    List (Nat × Nat) :=
  whereGT (decoded_scores pl) score_thresh

/-- `boxes = boxes[inds]`. -/
def cand_boxes (score_thresh : Rat) (pl : List (List Rat)) : List Box :=
  (cand_pairs score_thresh pl).map
    (fun p => (decoded_boxes pl).getD p.1 ⟨0, 0, 0, 0⟩)

/-- `scores = scores[inds, labels]`. -/
def cand_scores (score_thresh : Rat) (pl : List (List Rat)) : List Rat :=
  (cand_pairs score_thresh pl).map
    (fun p => ((decoded_scores pl).getD p.1 []).getD p.2 0)

/-- The class label of each candidate. -/
def cand_labels (score_thresh : Rat) (pl : List (List Rat)) : List Nat :=
  (cand_pairs score_thresh pl).map (fun p => p.2)

/-- `keep = batched_nms(...); keep = keep[: self.detections_per_img]`. -/
def keep_inds (score_thresh iou_thresh : Rat) (detections_per_img : Nat)
    (pl : List (List Rat)) : List Nat :=
  (batched_nms (cand_boxes score_thresh pl) (cand_scores score_thresh pl)
    (cand_labels score_thresh pl) iou_thresh).take detections_per_img

/-- The loop body of `PredictorTRT.postprocessing` for one image. -/
def postprocess_image (score_thresh iou_thresh : Rat)
    (detections_per_img : Nat) (pl : List (List Rat)) : Detections :=
  ⟨(keep_inds score_thresh iou_thresh detections_per_img pl).map
      (fun j => (cand_scores score_thresh pl).getD j 0),
    (keep_inds score_thresh iou_thresh detections_per_img pl).map
      (fun j => (cand_labels score_thresh pl).getD j 0),
    (keep_inds score_thresh iou_thresh detections_per_img pl).map
      (fun j => (cand_boxes score_thresh pl).getD j ⟨0, 0, 0, 0⟩)⟩

/-- `PredictorTRT.postprocessing`: one detection dictionary per batch
image. -/
def postprocessing (score_thresh iou_thresh : Rat)
    (detections_per_img : Nat) (pred_logits : List (List (List Rat))) :
    List Detections :=
  pred_logits.map
    (postprocess_image score_thresh iou_thresh detections_per_img)

end Yolort

namespace Yolort

/-!
# Theorems
-/

theorem rgetattr_nil (o : PyObj) : rgetattr o [] = some o := rfl

theorem rgetattr_cons (o : PyObj) (s : String) (rest : List String) :
    rgetattr o (s :: rest) =
      (getattrOpt o s).bind (fun o' => rgetattr o' rest) := by
  cases h : getattrOpt o s with
  | none =>
    simp only [rgetattr, List.foldl_cons, Option.bind, h]
    induction rest with
    | nil => rfl
    | cons t ts ih => simpa using ih
  | some o' => simp [rgetattr, List.foldl_cons, h]

theorem rgetattr_some_iff (o : PyObj) (attr : List String) (v : PyObj) :
    rgetattr o attr = some v ↔ Resolves o attr v := by
  induction attr generalizing o with
  | nil =>
    simp only [rgetattr_nil, Option.some_inj]
    constructor
    · rintro rfl; exact Resolves.nil o
    · rintro h; cases h; rfl
  | cons s rest ih =>
    rw [rgetattr_cons]
    constructor
    · intro h
      cases hg : getattrOpt o s with
      | none => rw [hg] at h; simp at h
      | some o' =>
        rw [hg] at h
        simp only [Option.some_bind] at h
        exact Resolves.cons hg ((ih o').mp h)
    · intro h
      cases h with
      | cons hg hrest =>
        rw [hg]
        simpa using (ih _).mpr hrest

theorem rgetattr_none_iff (o : PyObj) (attr : List String) :
    rgetattr o attr = none ↔ FailsAlong o attr := by
  induction attr generalizing o with
  | nil =>
    simp only [rgetattr_nil]
    constructor
    · intro h; exact absurd h (by simp)
    · rintro ⟨done, s, rest, o', habs, _, _⟩
      exact absurd habs (by simp)
  | cons s rest ih =>
    rw [rgetattr_cons]
    constructor
    · intro h
      cases hg : getattrOpt o s with
      | none => exact ⟨[], s, rest, o, rfl, Resolves.nil o, hg⟩
      | some o' =>
        rw [hg] at h
        simp only [Option.some_bind] at h
        obtain ⟨done, s', rest', o'', habs, hres, hnone⟩ := (ih o').mp h
        exact ⟨s :: done, s', rest', o'', by rw [habs]; rfl,
          Resolves.cons hg hres, hnone⟩
    · rintro ⟨done, s', rest', o', habs, hres, hnone⟩
      cases done with
      | nil =>
        simp only [List.nil_append, List.cons.injEq] at habs
        obtain ⟨rfl, rfl⟩ := habs
        cases hres
        rw [hnone]; rfl
      | cons d ds =>
        simp only [List.cons_append, List.cons.injEq] at habs
        obtain ⟨rfl, habs⟩ := habs
        cases hres with
        | cons hg hres' =>
          rw [hg]
          simp only [Option.some_bind]
          exact (ih _).mpr ⟨ds, s', rest', o', habs, hres', hnone⟩

/-- C2: `rgetattr` called without a default returns exactly the leaf value
obtained by successively applying attribute lookup along the path, and fails
(raises `AttributeError`) precisely when some path segment is absent on the
object reached so far. -/
theorem rgetattr_spec (o : PyObj) (attr : List String) :
    (∀ v, rgetattr o attr = some v ↔ Resolves o attr v) ∧
    (rgetattr o attr = none ↔ FailsAlong o attr) :=
  ⟨fun v => rgetattr_some_iff o attr v, rgetattr_none_iff o attr⟩

theorem updRegion_spec (f : String → Option PyObj)
    (l l' : List (String × PyObj)) (h : updRegion f l = some l') :
    l'.map Prod.fst = l.map Prod.fst ∧ ∀ p ∈ l', f p.1 = some p.2 := by
  induction l generalizing l' with
  | nil =>
    simp only [updRegion, Option.some_inj] at h
    subst h
    exact ⟨rfl, by simp⟩
  | cons p rest ih =>
    obtain ⟨n, v⟩ := p
    simp only [updRegion] at h
    cases hf : f n with
    | none => rw [hf] at h; simp at h
    | some w =>
      rw [hf] at h
      cases hr : updRegion f rest with
      | none => rw [hr] at h; simp at h
      | some r =>
        rw [hr] at h
        simp only [Option.some_inj] at h
        subst h
        obtain ⟨hnames, hvals⟩ := ih r hr
        refine ⟨by simpa using hnames, ?_⟩
        intro q hq
        cases hq with
        | head => exact hf
        | tail _ hq' => exact hvals q hq'

theorem bind_some_inv {α β : Type} {x : Option α} {f : α → Option β} {b : β}
    (h : x.bind f = some b) : ∃ a, x = some a ∧ f a = some b := by
  cases x with
  | none => simp at h
  | some a => exact ⟨a, rfl, h⟩

/-- Inversion of a successful `updating` run: the module sequence was
obtained and each of the eight region loops succeeded with the
corresponding component of the result. -/
theorem updating_inv (msu : MSU) (cp : PyObj) (m' : ModelParams)
    (h : ModuleStateUpdate.updating msu cp = some m') :
    ∃ seq, obtain_module_sequential cp = some seq ∧
      updRegion (fun n => attach_parameters_block seq n none)
        msu.model.body_params = some m'.body_params ∧
      updRegion (fun n => attach_parameters_block seq n none)
        msu.model.body_buffers = some m'.body_buffers ∧
      updRegion (fun n => attach_parameters_block seq n (some msu.inner_block_maps))
        msu.model.inner_params = some m'.inner_params ∧
      updRegion (fun n => attach_parameters_block seq n (some msu.inner_block_maps))
        msu.model.inner_buffers = some m'.inner_buffers ∧
      updRegion (fun n => attach_parameters_block seq n (some msu.layer_block_maps))
        msu.model.layer_params = some m'.layer_params ∧
      updRegion (fun n => attach_parameters_block seq n (some msu.layer_block_maps))
        msu.model.layer_buffers = some m'.layer_buffers ∧
      updRegion (fun n => attach_parameters_heads msu.head_ind msu.head_name seq n)
        msu.model.head_params = some m'.head_params ∧
      updRegion (fun n => attach_parameters_heads msu.head_ind msu.head_name seq n)
        msu.model.head_buffers = some m'.head_buffers := by
  unfold ModuleStateUpdate.updating at h
  obtain ⟨seq, hseq, h⟩ := bind_some_inv h
  obtain ⟨bp, h1, h⟩ := bind_some_inv h
  obtain ⟨bb, h2, h⟩ := bind_some_inv h
  obtain ⟨ip, h3, h⟩ := bind_some_inv h
  obtain ⟨ib, h4, h⟩ := bind_some_inv h
  obtain ⟨lp, h5, h⟩ := bind_some_inv h
  obtain ⟨lb, h6, h⟩ := bind_some_inv h
  obtain ⟨hp, h7, h⟩ := bind_some_inv h
  obtain ⟨hb, h8, h⟩ := bind_some_inv h
  obtain rfl := Option.some_inj.mp h
  exact ⟨seq, hseq, h1, h2, h3, h4, h5, h6, h7, h8⟩

/-- C1: after a successful `ModuleStateUpdate.updating(checkpoint)` run,
every named parameter and buffer of the target model carries the value of
the upstream checkpoint's module sequence at the remapped position:
backbone-body names are indexed by `int` of their first dotted segment, PAN
inner-block (resp. layer-block) names through `inner_block_maps` (resp.
`layer_block_maps`) at their first segment, and head names on module
`head_ind`'s attribute `head_name` at `int` of their second segment, the
remaining segments resolved by `rgetattr`; the parameter names themselves
are unchanged. -/
theorem updating_spec (msu : MSU) (cp : PyObj) (m' : ModelParams) (seq : PyObj)
    (hseq : obtain_module_sequential cp = some seq)
    (h : ModuleStateUpdate.updating msu cp = some m') :
    (m'.body_params.map Prod.fst = msu.model.body_params.map Prod.fst ∧
      ∀ p ∈ m'.body_params, attach_parameters_block seq p.1 none = some p.2) ∧
    (m'.body_buffers.map Prod.fst = msu.model.body_buffers.map Prod.fst ∧
      ∀ p ∈ m'.body_buffers, attach_parameters_block seq p.1 none = some p.2) ∧
    (m'.inner_params.map Prod.fst = msu.model.inner_params.map Prod.fst ∧
      ∀ p ∈ m'.inner_params,
        attach_parameters_block seq p.1 (some msu.inner_block_maps) = some p.2) ∧
    (m'.inner_buffers.map Prod.fst = msu.model.inner_buffers.map Prod.fst ∧
      ∀ p ∈ m'.inner_buffers,
        attach_parameters_block seq p.1 (some msu.inner_block_maps) = some p.2) ∧
    (m'.layer_params.map Prod.fst = msu.model.layer_params.map Prod.fst ∧
      ∀ p ∈ m'.layer_params,
        attach_parameters_block seq p.1 (some msu.layer_block_maps) = some p.2) ∧
    (m'.layer_buffers.map Prod.fst = msu.model.layer_buffers.map Prod.fst ∧
      ∀ p ∈ m'.layer_buffers,
        attach_parameters_block seq p.1 (some msu.layer_block_maps) = some p.2) ∧
    (m'.head_params.map Prod.fst = msu.model.head_params.map Prod.fst ∧
      ∀ p ∈ m'.head_params,
        attach_parameters_heads msu.head_ind msu.head_name seq p.1 = some p.2) ∧
    (m'.head_buffers.map Prod.fst = msu.model.head_buffers.map Prod.fst ∧
      ∀ p ∈ m'.head_buffers,
        attach_parameters_heads msu.head_ind msu.head_name seq p.1 = some p.2) := by
  obtain ⟨seq', hseq', h1, h2, h3, h4, h5, h6, h7, h8⟩ := updating_inv msu cp m' h
  obtain rfl : seq' = seq := by
    rw [hseq] at hseq'
    exact (Option.some_inj.mp hseq').symm
  exact ⟨updRegion_spec _ _ _ h1, updRegion_spec _ _ _ h2,
    updRegion_spec _ _ _ h3, updRegion_spec _ _ _ h4,
    updRegion_spec _ _ _ h5, updRegion_spec _ _ _ h6,
    updRegion_spec _ _ _ h7, updRegion_spec _ _ _ h8⟩

/-- C9: `updating` only copies values out of the source checkpoint: when it
returns, the checkpoint component of the state is unchanged, the updater's
configuration fields are unchanged, and within the model only the values of
the parameters and buffers changed — their names are preserved. -/
theorem updatingState_frame (s s' : MSUState)
    (h : ModuleStateUpdate.updatingState s = some s') :
    s'.checkpoint = s.checkpoint ∧
    s'.msu.inner_block_maps = s.msu.inner_block_maps ∧
    s'.msu.layer_block_maps = s.msu.layer_block_maps ∧
    s'.msu.head_ind = s.msu.head_ind ∧
    s'.msu.head_name = s.msu.head_name ∧
    s'.msu.model.body_params.map Prod.fst =
      s.msu.model.body_params.map Prod.fst ∧
    s'.msu.model.body_buffers.map Prod.fst =
      s.msu.model.body_buffers.map Prod.fst ∧
    s'.msu.model.inner_params.map Prod.fst =
      s.msu.model.inner_params.map Prod.fst ∧
    s'.msu.model.inner_buffers.map Prod.fst =
      s.msu.model.inner_buffers.map Prod.fst ∧
    s'.msu.model.layer_params.map Prod.fst =
      s.msu.model.layer_params.map Prod.fst ∧
    s'.msu.model.layer_buffers.map Prod.fst =
      s.msu.model.layer_buffers.map Prod.fst ∧
    s'.msu.model.head_params.map Prod.fst =
      s.msu.model.head_params.map Prod.fst ∧
    s'.msu.model.head_buffers.map Prod.fst =
      s.msu.model.head_buffers.map Prod.fst := by
  unfold ModuleStateUpdate.updatingState at h
  cases hu : ModuleStateUpdate.updating s.msu s.checkpoint with
  | none => rw [hu] at h; simp at h
  | some m =>
    rw [hu] at h
    simp only [Option.map_some', Option.some_inj] at h
    obtain ⟨seq, hseq, h1, h2, h3, h4, h5, h6, h7, h8⟩ :=
      updating_inv s.msu s.checkpoint m hu
    subst h
    refine ⟨rfl, rfl, rfl, rfl, rfl, ?_, ?_, ?_, ?_, ?_, ?_, ?_, ?_⟩
    · exact (updRegion_spec _ _ _ h1).1
    · exact (updRegion_spec _ _ _ h2).1
    · exact (updRegion_spec _ _ _ h3).1
    · exact (updRegion_spec _ _ _ h4).1
    · exact (updRegion_spec _ _ _ h5).1
    · exact (updRegion_spec _ _ _ h6).1
    · exact (updRegion_spec _ _ _ h7).1
    · exact (updRegion_spec _ _ _ h8).1

/-- C10: `load_from_ultralytics` fails by assertion for every version string
outside `r3.1` / `r4.0` / `r6.0`, and the failure happens before the
checkpoint file is read: the effect trace is empty, so no partial result is
left behind. -/
theorem load_from_ultralytics_version_assert {C R : Type}
    (load_yolov5_model : String → C) (build_result : C → R)
    (checkpoint_path version : String)
    (hv : ¬(version = "r3.1" ∨ version = "r4.0" ∨ version = "r6.0")) :
    load_from_ultralytics load_yolov5_model build_result
        checkpoint_path version =
      (.error (.assertionError "Currently does not support this version."),
        []) := by
  unfold load_from_ultralytics
  rw [if_neg hv]

theorem load_from_ultralytics_version_assert_witness :
    @load_from_ultralytics Unit Unit (fun _ => ()) (fun _ => ())
        "yolov5s.pt" "r5.0" =
      (.error (.assertionError "Currently does not support this version."),
        []) :=
  load_from_ultralytics_version_assert _ _ _ _ (by decide)

/-- Evaluation of `obtain_module_sequential` on the concrete checkpoint. -/
theorem oms_eval : obtain_module_sequential cpW = some seqW := by
  rw [obtain_module_sequential]
  simp only [cpW, PyObj.isSeq, Bool.false_eq_true, if_false, getattrOpt,
    PyObj.attrs, lookupStr, if_pos]
  rw [if_pos rfl]
  show obtain_module_sequential seqW = some seqW
  rw [obtain_module_sequential]
  simp [seqW, PyObj.isSeq]

/-- Evaluation of `updating` on the concrete instance. -/
theorem updating_eval : ModuleStateUpdate.updating msuW cpW = some modelW' := by
  unfold ModuleStateUpdate.updating
  rw [oms_eval]
  rfl

theorem updating_spec_witness :
    attach_parameters_block seqW "0.weight" none = some leafW :=
  ((updating_spec msuW cpW modelW' seqW oms_eval updating_eval).1.2
    ("0.weight", leafW) (List.Mem.head _))

theorem updatingState_eval :
    ModuleStateUpdate.updatingState ⟨msuW, cpW⟩ =
      some ⟨⟨msuW.inner_block_maps, msuW.layer_block_maps, msuW.head_ind,
        msuW.head_name, modelW'⟩, cpW⟩ := by
  unfold ModuleStateUpdate.updatingState
  rw [updating_eval]
  rfl

theorem updatingState_frame_witness :
    (MSUState.mk ⟨msuW.inner_block_maps, msuW.layer_block_maps, msuW.head_ind,
        msuW.head_name, modelW'⟩ cpW).checkpoint =
      (MSUState.mk msuW cpW).checkpoint ∧
    (MSUState.mk ⟨msuW.inner_block_maps, msuW.layer_block_maps, msuW.head_ind,
        msuW.head_name, modelW'⟩ cpW).msu.model.head_params.map Prod.fst =
      (MSUState.mk msuW cpW).msu.model.head_params.map Prod.fst := by
  have h := updatingState_frame ⟨msuW, cpW⟩ _ updatingState_eval
  exact ⟨h.1, h.2.2.2.2.2.2.2.2.2.2.2.1⟩

/-!
### The batching transform
-/

theorem ceil_mult_least (sd m : Nat) (hsd : 0 < sd) :
    IsLeastMultipleGe sd m (ceil_mult m sd) := by
  refine ⟨⟨(m + sd - 1) / sd, Nat.mul_comm _ _⟩, ?_, ?_⟩
  · show m ≤ ((m + sd - 1) / sd) * sd
    have hdm := Nat.div_add_mod (m + sd - 1) sd
    have hmod := Nat.mod_lt (m + sd - 1) hsd
    rw [Nat.mul_comm]
    generalize hq : sd * ((m + sd - 1) / sd) = Q at hdm ⊢
    omega
  · intro w hdvd hmw
    obtain ⟨u, rfl⟩ := hdvd
    show ((m + sd - 1) / sd) * sd ≤ sd * u
    have h1 : (m + sd - 1) / sd < u + 1 := by
      rw [Nat.div_lt_iff_lt_mul hsd]
      have h2 : (u + 1) * sd = sd * u + sd := by ring
      omega
    calc ((m + sd - 1) / sd) * sd ≤ u * sd := Nat.mul_le_mul_right sd (by omega)
      _ = sd * u := Nat.mul_comm _ _

theorem foldl_max_init_le (xs : List Nat) :
    ∀ a : Nat, a ≤ xs.foldl max a := by
  induction xs with
  | nil => intro a; exact le_refl a
  | cons y ys ih =>
    intro a
    rw [List.foldl_cons]
    calc a ≤ max a y := le_max_left a y
      _ ≤ ys.foldl max (max a y) := ih _

theorem foldl_max_le (xs : List Nat) :
    ∀ (a : Nat) (x : Nat), x ∈ xs → x ≤ xs.foldl max a := by
  induction xs with
  | nil => intro a x hx; simp at hx
  | cons y ys ih =>
    intro a x hx
    rw [List.foldl_cons]
    cases hx with
    | head => exact le_trans (le_max_right a _) (foldl_max_init_le ys _)
    | tail _ hx' => exact ih (max a y) x hx'

theorem foldl_max_attained (xs : List Nat) :
    ∀ a : Nat, xs.foldl max a = a ∨ xs.foldl max a ∈ xs := by
  induction xs with
  | nil => intro a; exact Or.inl rfl
  | cons y ys ih =>
    intro a
    rw [List.foldl_cons]
    cases ih (max a y) with
    | inl h =>
      rw [h]
      rcases Nat.le_total a y with hay | hya
      · exact Or.inr (by rw [Nat.max_eq_right hay]; exact List.Mem.head _)
      · exact Or.inl (Nat.max_eq_left hya)
    | inr h => exact Or.inr (List.Mem.tail _ h)

theorem maxAxis_ge (l : List PyTensor) (k : Nat) (t : PyTensor) (ht : t ∈ l) :
    t.shape.getD k 0 ≤ maxAxis l k :=
  foldl_max_le _ 0 _ (List.mem_map.mpr ⟨t, ht, rfl⟩)

theorem maxAxis_attained (l : List PyTensor) (k : Nat) (hne : l ≠ []) :
    ∃ t ∈ l, t.shape.getD k 0 = maxAxis l k := by
  cases hatt : foldl_max_attained (l.map (fun t => t.shape.getD k 0)) 0 with
  | inl h =>
    obtain ⟨t0, rest, rfl⟩ : ∃ t0 rest, l = t0 :: rest := by
      cases l with
      | nil => exact absurd rfl hne
      | cons a b => exact ⟨a, b, rfl⟩
    refine ⟨t0, List.Mem.head _, ?_⟩
    have hle := maxAxis_ge (t0 :: rest) k t0 (List.Mem.head _)
    have : maxAxis (t0 :: rest) k = 0 := h
    omega
  | inr h =>
    obtain ⟨t, ht, heq⟩ := List.mem_map.mp h
    exact ⟨t, ht, heq⟩

theorem upd_maxes_three (a b c x y z : Nat) :
    upd_maxes [a, b, c] [x, y, z] = .ok [max a x, max b y, max c z] := by
  simp [upd_maxes]

theorem foldlM_upd_maxes (rest : List (List Nat)) :
    ∀ a b c : Nat, (∀ s ∈ rest, s.length = 3) →
      rest.foldlM upd_maxes [a, b, c] =
        .ok [rest.foldl (fun v s => max v (s.getD 0 0)) a,
          rest.foldl (fun v s => max v (s.getD 1 0)) b,
          rest.foldl (fun v s => max v (s.getD 2 0)) c] := by
  induction rest with
  | nil => intro a b c _; rfl
  | cons s rest ih =>
    intro a b c hlen
    obtain ⟨x, y, z, rfl⟩ : ∃ x y z, s = [x, y, z] := by
      have h3 := hlen s (List.Mem.head _)
      match s, h3 with
      | [x, y, z], _ => exact ⟨x, y, z, rfl⟩
    rw [List.foldlM_cons, upd_maxes_three]
    show rest.foldlM upd_maxes [max a x, max b y, max c z] = _
    rw [ih _ _ _ (fun s hs => hlen s (List.Mem.tail _ hs))]
    rfl

theorem max_by_axis_eval (t0 : PyTensor) (rest : List PyTensor)
    (h3 : ∀ t ∈ t0 :: rest, t.shape.length = 3) :
    max_by_axis ((t0 :: rest).map PyTensor.shape) =
      .ok [maxAxis (t0 :: rest) 0, maxAxis (t0 :: rest) 1,
        maxAxis (t0 :: rest) 2] := by
  obtain ⟨sh, dt⟩ := t0
  obtain ⟨x, y, z, rfl⟩ : ∃ x y z, sh = [x, y, z] := by
    have h := h3 ⟨sh, dt⟩ (List.Mem.head _)
    match sh, h with
    | [x, y, z], _ => exact ⟨x, y, z, rfl⟩
  show (rest.map PyTensor.shape).foldlM upd_maxes [x, y, z] = _
  rw [foldlM_upd_maxes _ _ _ _ (by
    intro s hs
    obtain ⟨t, ht, rfl⟩ := List.mem_map.mp hs
    exact h3 t (List.Mem.tail _ ht))]
  have comp : ∀ k v, (rest.map PyTensor.shape).foldl
      (fun w s => max w (s.getD k 0)) v =
        (rest.map (fun t => t.shape.getD k 0)).foldl max v := by
    intro k v
    rw [List.foldl_map, List.foldl_map]
  have hx : maxAxis (⟨[x, y, z], dt⟩ :: rest) 0 =
      (rest.map (fun t => t.shape.getD 0 0)).foldl max (max 0 x) := rfl
  have hy : maxAxis (⟨[x, y, z], dt⟩ :: rest) 1 =
      (rest.map (fun t => t.shape.getD 1 0)).foldl max (max 0 y) := rfl
  have hz : maxAxis (⟨[x, y, z], dt⟩ :: rest) 2 =
      (rest.map (fun t => t.shape.getD 2 0)).foldl max (max 0 z) := rfl
  rw [hx, hy, hz, Nat.zero_max, Nat.zero_max, Nat.zero_max,
    comp 0 x, comp 1 y, comp 2 z]

theorem foldlM_copy_ok (ps : List (Nat × PyTensor)) :
    ∀ init : PyTensor, (∀ p ∈ ps, p.2.shape.length = 3) →
      (ps.foldlM (fun acc p =>
          if p.2.shape.length < 3 then Except.error PyErr.indexError
          else if p.2.shape.length = 3 then Except.ok (copy_into acc p.1 p.2)
          else Except.error PyErr.runtimeError) init
        : Except PyErr PyTensor) =
        .ok (ps.foldl (fun acc p => copy_into acc p.1 p.2) init) := by
  induction ps with
  | nil => intro init _; rfl
  | cons p ps ih =>
    intro init hlen
    have hp := hlen p (List.Mem.head _)
    rw [List.foldlM_cons]
    rw [if_neg (by omega), if_pos hp]
    show ps.foldlM _ (copy_into init p.1 p.2) = _
    rw [ih _ (fun q hq => hlen q (List.Mem.tail _ hq))]
    rfl

theorem foldl_copy_shape (ps : List (Nat × PyTensor)) :
    ∀ init : PyTensor,
      (ps.foldl (fun acc p => copy_into acc p.1 p.2) init).shape = init.shape := by
  induction ps with
  | nil => intro init; rfl
  | cons p ps ih =>
    intro init
    rw [List.foldl_cons, ih]
    rfl

theorem foldl_copy_miss (ps : List (Nat × PyTensor)) :
    ∀ (init : PyTensor) (i a b c : Nat), (∀ p ∈ ps, p.1 ≠ i) →
      (ps.foldl (fun acc p => copy_into acc p.1 p.2) init).data [i, a, b, c] =
        init.data [i, a, b, c] := by
  induction ps with
  | nil => intro init i a b c _; rfl
  | cons p ps ih =>
    intro init i a b c hne
    rw [List.foldl_cons, ih _ _ _ _ _ (fun q hq => hne q (List.Mem.tail _ hq))]
    show (if i = p.1 ∧ a < p.2.shape.getD 0 0 ∧ b < p.2.shape.getD 1 0 ∧
        c < p.2.shape.getD 2 0 then p.2.data [a, b, c]
      else init.data [i, a, b, c]) = init.data [i, a, b, c]
    rw [if_neg]
    rintro ⟨h1, -⟩
    exact hne p (List.Mem.head _) h1.symm

theorem foldl_copy_enumFrom (l : List PyTensor) :
    ∀ (k : Nat) (init : PyTensor) (i : Nat) (t : PyTensor) (a b c : Nat),
      l.get? i = some t →
      ((l.enumFrom k).foldl (fun acc p => copy_into acc p.1 p.2) init).data
          [k + i, a, b, c] =
        if a < t.shape.getD 0 0 ∧ b < t.shape.getD 1 0 ∧ c < t.shape.getD 2 0
        then t.data [a, b, c]
        else init.data [k + i, a, b, c] := by
  induction l with
  | nil => intro k init i t a b c h; simp at h
  | cons hd tl ih =>
    intro k init i t a b c h
    rw [show List.enumFrom k (hd :: tl) = (k, hd) :: List.enumFrom (k + 1) tl
      from rfl]
    rw [List.foldl_cons]
    cases i with
    | zero =>
      obtain rfl : hd = t := by simpa using h
      rw [foldl_copy_miss _ _ _ _ _ _ (fun q hq => by
        have := List.le_fst_of_mem_enumFrom hq
        omega)]
      show (if k + 0 = k ∧ a < hd.shape.getD 0 0 ∧ b < hd.shape.getD 1 0 ∧
          c < hd.shape.getD 2 0 then hd.data [a, b, c]
        else init.data [k + 0, a, b, c]) = _
      by_cases hin : a < hd.shape.getD 0 0 ∧ b < hd.shape.getD 1 0 ∧
          c < hd.shape.getD 2 0
      · rw [if_pos ⟨rfl, hin⟩, if_pos hin]
      · rw [if_neg (by rintro ⟨-, h2⟩; exact hin h2), if_neg hin]
    | succ j =>
      have h' : tl.get? j = some t := by simpa using h
      have harith : k + (j + 1) = (k + 1) + j := by omega
      rw [harith]
      rw [ih (k + 1) (copy_into init k hd) j t a b c h']
      have hmiss : (copy_into init k hd).data [(k + 1) + j, a, b, c] =
          init.data [(k + 1) + j, a, b, c] := by
        show (if (k + 1) + j = k ∧ a < hd.shape.getD 0 0 ∧
            b < hd.shape.getD 1 0 ∧ c < hd.shape.getD 2 0
          then hd.data [a, b, c]
          else init.data [(k + 1) + j, a, b, c]) =
            init.data [(k + 1) + j, a, b, c]
        rw [if_neg]
        rintro ⟨h1, -⟩
        omega
      rw [hmiss]

/-- C5: outside ONNX tracing, `batch_images` on a non-empty list of 3-d
images returns one tensor of shape `[N, C, H, W]`: `N` the number of
images, `C` the per-axis maximum of the channel counts, `H` and `W` the
per-axis maxima of heights and widths rounded up to the least multiple of
`size_divisible`; each image occupies the top-left corner of its batch
slice and every remaining entry is `fill_color`. -/
theorem batch_images_spec (l : List PyTensor) (sd : Nat) (fill : Int)
    (hne : l ≠ []) (h3 : ∀ t ∈ l, t.shape.length = 3) (hsd : 0 < sd) :
    ∃ T, batch_images l sd fill = .ok T ∧
      T.shape = [l.length, maxAxis l 0, ceil_mult (maxAxis l 1) sd,
        ceil_mult (maxAxis l 2) sd] ∧
      (∀ t ∈ l, t.shape.getD 0 0 ≤ maxAxis l 0 ∧
        t.shape.getD 1 0 ≤ maxAxis l 1 ∧ t.shape.getD 2 0 ≤ maxAxis l 2) ∧
      (∃ t ∈ l, t.shape.getD 0 0 = maxAxis l 0) ∧
      IsLeastMultipleGe sd (maxAxis l 1) (ceil_mult (maxAxis l 1) sd) ∧
      IsLeastMultipleGe sd (maxAxis l 2) (ceil_mult (maxAxis l 2) sd) ∧
      (∀ i t, l.get? i = some t → ∀ a b c,
        T.data [i, a, b, c] =
          if a < t.shape.getD 0 0 ∧ b < t.shape.getD 1 0 ∧
              c < t.shape.getD 2 0
          then t.data [a, b, c] else fill) := by
  obtain ⟨t0, rest, rfl⟩ : ∃ t0 rest, l = t0 :: rest := by
    cases l with
    | nil => exact absurd rfl hne
    | cons a b => exact ⟨a, b, rfl⟩
  have h30 := h3 t0 (List.Mem.head _)
  have hbi : batch_images (t0 :: rest) sd fill =
      (max_by_axis ((t0 :: rest).map PyTensor.shape)).bind fun ms =>
        (t0 :: rest).enum.foldlM
          (fun acc p =>
            if p.2.shape.length < 3 then Except.error PyErr.indexError
            else if p.2.shape.length = 3 then
              Except.ok (copy_into acc p.1 p.2)
            else Except.error PyErr.runtimeError)
          (new_full ((t0 :: rest).length ::
            [ms.getD 0 0, ceil_mult (ms.getD 1 0) sd,
              ceil_mult (ms.getD 2 0) sd]) fill) := by
    show (if t0.shape.length = 3 then _ else _) = _
    rw [if_pos h30]
  have hbi2 : batch_images (t0 :: rest) sd fill =
      ((t0 :: rest).enumFrom 0).foldlM
        (fun acc p =>
          if p.2.shape.length < 3 then Except.error PyErr.indexError
          else if p.2.shape.length = 3 then
            Except.ok (copy_into acc p.1 p.2)
          else Except.error PyErr.runtimeError)
        (new_full ((t0 :: rest).length ::
          [maxAxis (t0 :: rest) 0, ceil_mult (maxAxis (t0 :: rest) 1) sd,
            ceil_mult (maxAxis (t0 :: rest) 2) sd]) fill) := by
    rw [hbi, max_by_axis_eval t0 rest h3]
    rfl
  rw [hbi2, foldlM_copy_ok _ _ (fun p hp =>
    h3 p.2 (List.snd_mem_of_mem_enumFrom hp))]
  refine ⟨_, rfl, ?_, ?_, ?_, ?_, ?_, ?_⟩
  · rw [foldl_copy_shape]
    rfl
  · intro t ht
    exact ⟨maxAxis_ge _ 0 t ht, maxAxis_ge _ 1 t ht, maxAxis_ge _ 2 t ht⟩
  · exact maxAxis_attained _ 0 hne
  · exact ceil_mult_least sd _ hsd
  · exact ceil_mult_least sd _ hsd
  · intro i t hget a b c
    have hchar := foldl_copy_enumFrom (t0 :: rest) 0
      (new_full ((t0 :: rest).length ::
        [maxAxis (t0 :: rest) 0, ceil_mult (maxAxis (t0 :: rest) 1) sd,
          ceil_mult (maxAxis (t0 :: rest) 2) sd]) fill) i t a b c hget
    rw [Nat.zero_add] at hchar
    rw [hchar]
    rfl

theorem batch_images_spec_witness :
    ∃ T, batch_images [⟨[1, 2, 3], fun _ => 7⟩] 4 114 = .ok T ∧
      T.shape = [([⟨[1, 2, 3], fun _ => (7 : Int)⟩] : List PyTensor).length,
        maxAxis [⟨[1, 2, 3], fun _ => 7⟩] 0,
        ceil_mult (maxAxis [⟨[1, 2, 3], fun _ => 7⟩] 1) 4,
        ceil_mult (maxAxis [⟨[1, 2, 3], fun _ => 7⟩] 2) 4] ∧
      (∀ t ∈ ([⟨[1, 2, 3], fun _ => (7 : Int)⟩] : List PyTensor),
        t.shape.getD 0 0 ≤ maxAxis [⟨[1, 2, 3], fun _ => 7⟩] 0 ∧
        t.shape.getD 1 0 ≤ maxAxis [⟨[1, 2, 3], fun _ => 7⟩] 1 ∧
        t.shape.getD 2 0 ≤ maxAxis [⟨[1, 2, 3], fun _ => 7⟩] 2) ∧
      (∃ t ∈ ([⟨[1, 2, 3], fun _ => (7 : Int)⟩] : List PyTensor),
        t.shape.getD 0 0 = maxAxis [⟨[1, 2, 3], fun _ => 7⟩] 0) ∧
      IsLeastMultipleGe 4 (maxAxis [⟨[1, 2, 3], fun _ => 7⟩] 1)
        (ceil_mult (maxAxis [⟨[1, 2, 3], fun _ => 7⟩] 1) 4) ∧
      IsLeastMultipleGe 4 (maxAxis [⟨[1, 2, 3], fun _ => 7⟩] 2)
        (ceil_mult (maxAxis [⟨[1, 2, 3], fun _ => 7⟩] 2) 4) ∧
      (∀ i t, ([⟨[1, 2, 3], fun _ => (7 : Int)⟩] : List PyTensor).get? i =
          some t → ∀ a b c,
        T.data [i, a, b, c] =
          if a < t.shape.getD 0 0 ∧ b < t.shape.getD 1 0 ∧
              c < t.shape.getD 2 0
          then t.data [a, b, c] else 114) :=
  batch_images_spec [⟨[1, 2, 3], fun _ => 7⟩] 4 114 (by simp)
    (by
      intro t ht
      rw [List.mem_singleton] at ht
      rw [ht]
      rfl)
    (by omega)


/-!
### Bespoke errors (C3)
-/

theorem max_by_axis_no_valueError (l : List (List Nat)) (s : String) :
    max_by_axis l ≠ .error (.valueError s) := by
  cases l with
  | nil => intro h; simp [max_by_axis] at h
  | cons m rest =>
    show rest.foldlM upd_maxes m ≠ _
    induction rest generalizing m with
    | nil => intro h; exact Except.noConfusion h
    | cons s' rest ih =>
      rw [List.foldlM_cons]
      unfold upd_maxes
      by_cases hc : s'.length ≤ m.length
      · rw [if_pos hc]
        show rest.foldlM upd_maxes _ ≠ _
        exact ih _
      · rw [if_neg hc]
        intro h
        injection h with h'
        exact PyErr.noConfusion h'

theorem foldlM_copy_no_valueError (ps : List (Nat × PyTensor)) (s : String) :
    ∀ init : PyTensor,
      (ps.foldlM (fun acc p =>
          if p.2.shape.length < 3 then Except.error PyErr.indexError
          else if p.2.shape.length = 3 then Except.ok (copy_into acc p.1 p.2)
          else Except.error PyErr.runtimeError) init
        : Except PyErr PyTensor) ≠ .error (.valueError s) := by
  induction ps with
  | nil => intro init h; exact Except.noConfusion h
  | cons p ps ih =>
    intro init
    rw [List.foldlM_cons]
    by_cases h1 : p.2.shape.length < 3
    · rw [if_pos h1]
      intro h
      injection h with h'
      exact PyErr.noConfusion h'
    · rw [if_neg h1]
      by_cases h2 : p.2.shape.length = 3
      · rw [if_pos h2]
        show ps.foldlM _ _ ≠ _
        exact ih _
      · rw [if_neg h2]
        intro h
        injection h with h'
        exact PyErr.noConfusion h'

/-- C3, counterexample: the repository itself does construct and raise
errors for invalid input — `load_from_ultralytics`'s version assertion,
`batch_images`'s `raise ValueError("not supported")` and
`PathAggregationNetwork.__init__`'s length assertion all fire on concrete
inputs. -/
theorem bespoke_error_exists :
    (@load_from_ultralytics Unit Unit (fun _ => ()) (fun _ => ())
        "yolov5s.pt" "v6.0").1 =
      .error (.assertionError "Currently does not support this version.") ∧
    batch_images [⟨[2, 2], fun _ => 0⟩] 32 114 =
      .error (.valueError "not supported") ∧
    pan_init [2, 2] =
      .error (.assertionError "currently only support length 3.") := by
  refine ⟨?_, rfl, rfl⟩
  show (if ("v6.0" = "r3.1" ∨ "v6.0" = "r4.0" ∨ "v6.0" = "r6.0") then _
    else _ : Except PyErr Unit × List Effect).1 = _
  rw [if_neg (by decide)]

/-- C3, amended: contrary to the claim, the repository does construct and
raise errors for invalid input at explicit validation checks, among them
the version assertion of `load_from_ultralytics`, `batch_images`'s
`ValueError("not supported")` and the length assertion of
`PathAggregationNetwork.__init__`; for each of these three the bespoke
error is raised exactly when its validation condition fails — the version
is outside `r3.1` / `r4.0` / `r6.0`, the first tensor of a non-empty list
is not 3-dimensional, `in_channels_list` does not have length 3. -/
theorem bespoke_errors_characterized :
    (∀ (C R : Type) (lm : String → C) (br : C → R) (path version : String),
      (load_from_ultralytics lm br path version).1 =
          .error (.assertionError "Currently does not support this version.") ↔
        ¬(version = "r3.1" ∨ version = "r4.0" ∨ version = "r6.0")) ∧
    (∀ (l : List PyTensor) (sd : Nat) (fill : Int),
      batch_images l sd fill = .error (.valueError "not supported") ↔
        ∃ t0 rest, l = t0 :: rest ∧ t0.shape.length ≠ 3) ∧
    (∀ l : List Nat,
      pan_init l = .error (.assertionError "currently only support length 3.")
        ↔ l.length ≠ 3) := by
  refine ⟨?_, ?_, ?_⟩
  · intro C R lm br path version
    constructor
    · intro h hv
      unfold load_from_ultralytics at h
      rw [if_pos hv] at h
      simp at h
    · intro hv
      unfold load_from_ultralytics
      rw [if_neg hv]
  · intro l sd fill
    constructor
    · intro h
      cases l with
      | nil =>
        exfalso
        have hx : (Except.error PyErr.indexError : Except PyErr PyTensor) =
            .error (.valueError "not supported") := h
        injection hx with h'
        exact PyErr.noConfusion h'
      | cons t0 rest =>
        refine ⟨t0, rest, rfl, ?_⟩
        intro h3
        have hbi : batch_images (t0 :: rest) sd fill =
            (max_by_axis ((t0 :: rest).map PyTensor.shape)).bind fun ms =>
              (t0 :: rest).enum.foldlM
                (fun acc p =>
                  if p.2.shape.length < 3 then Except.error PyErr.indexError
                  else if p.2.shape.length = 3 then
                    Except.ok (copy_into acc p.1 p.2)
                  else Except.error PyErr.runtimeError)
                (new_full ((t0 :: rest).length ::
                  [ms.getD 0 0, ceil_mult (ms.getD 1 0) sd,
                    ceil_mult (ms.getD 2 0) sd]) fill) := by
          show (if t0.shape.length = 3 then _ else _) = _
          rw [if_pos h3]
        rw [hbi] at h
        cases hma : max_by_axis ((t0 :: rest).map PyTensor.shape) with
        | error e =>
          rw [hma] at h
          have hee : (Except.error e : Except PyErr PyTensor) =
              .error (.valueError "not supported") := h
          have he : e = PyErr.valueError "not supported" := by
            injection hee
          exact max_by_axis_no_valueError _ _ (by rw [hma, he])
        | ok ms =>
          rw [hma] at h
          exact foldlM_copy_no_valueError _ _ _ h
    · rintro ⟨t0, rest, rfl, h3⟩
      show (if t0.shape.length = 3 then _ else _) = _
      rw [if_neg h3]
  · intro l
    constructor
    · intro h hlen
      unfold pan_init at h
      rw [if_pos hlen] at h
      exact Except.noConfusion h
    · intro hlen
      unfold pan_init
      rw [if_neg hlen]

/-!
### PathAggregationNetwork
-/

/-- C6: `PathAggregationNetwork` operates over exactly 3 pyramid levels:
the constructor succeeds exactly when `in_channels_list` has length 3
(failing its assertion otherwise) and builds 6 inner blocks and 5 layer
blocks; on every input of 3 feature maps, `forward` returns exactly 3
tensors, produced by the fixed top-down pass over `inner_blocks` followed
by the bottom-up pass over `layer_blocks`. -/
theorem pan_spec :
    (∀ l : List Nat, ((∃ v, pan_init l = .ok v) ↔ l.length = 3) ∧
      ∀ v, pan_init l = .ok v → v.1.length = 6 ∧ v.2.length = 5) ∧
    (∀ (T : Type) (cat : T → T → T) (ibs lbs : List (T → T)) (x : List T),
      ibs.length = 6 → lbs.length = 5 → x.length = 3 →
      ∃ r, pan_forward cat ibs lbs x = .ok r ∧ r.length = 3 ∧
        ∃ f0 f1 f2 f3 f4 f5 g0 g1 g2 g3 g4 x0 x1 x2,
          ibs = [f0, f1, f2, f3, f4, f5] ∧ lbs = [g0, g1, g2, g3, g4] ∧
          x = [x0, x1, x2] ∧
          r = (let l2 := f1 (f0 x2)
               let l6 := f4 (f3 (cat (f2 l2) x1))
               let l8 := cat (f5 l6) x0
               let r0 := g0 l8
               let r1 := g2 (cat (g1 r0) l6)
               let r2 := g4 (cat (g3 r1) l2)
               [r0, r1, r2])) := by
  constructor
  · intro l
    constructor
    · constructor
      · rintro ⟨v, hv⟩
        by_contra hlen
        unfold pan_init at hv
        rw [if_neg hlen] at hv
        exact Except.noConfusion hv
      · intro hlen
        exact ⟨_, by unfold pan_init; rw [if_pos hlen]⟩
    · intro v hv
      unfold pan_init at hv
      by_cases hlen : l.length = 3
      · rw [if_pos hlen] at hv
        injection hv with hv'
        subst hv'
        exact ⟨rfl, rfl⟩
      · rw [if_neg hlen] at hv
        exact Except.noConfusion hv
  · intro T cat ibs lbs x hib hlb hx
    exact match ibs, hib with
      | [f0, f1, f2, f3, f4, f5], _ =>
        match lbs, hlb with
        | [g0, g1, g2, g3, g4], _ =>
          match x, hx with
          | [x0, x1, x2], _ =>
            ⟨_, rfl, rfl, f0, f1, f2, f3, f4, f5, g0, g1, g2, g3, g4,
              x0, x1, x2, rfl, rfl, rfl, rfl⟩

/-!
### The `NonMaxSupressionOp` export shim
-/

/-- C8: `NonMaxSupressionOp.forward` computes no non-maximum suppression:
started from the same random state, any two inputs whose `scores` tensors
have the same batch dimension produce identical selected-index tensors
(and identical final random states) — the output is independent of the
numeric contents of `boxes` and `scores` and of the three threshold
arguments, a placeholder for the exported ONNX `NonMaxSuppression` node. -/
theorem nonMaxSupressionOp_ignores_inputs {S : Type}
    (pyRandint : S → Nat → Nat → Nat × S)
    (torchRandint : S → Nat → Nat → Nat → List Nat × S) (s : S)
    (boxes1 scores1 m1 i1 t1 boxes2 scores2 m2 i2 t2 : QTensor)
    (hbatch : scores1.shape.headD 0 = scores2.shape.headD 0) :
    NonMaxSupressionOp.forward pyRandint torchRandint s
        boxes1 scores1 m1 i1 t1 =
      NonMaxSupressionOp.forward pyRandint torchRandint s
        boxes2 scores2 m2 i2 t2 := by
  unfold NonMaxSupressionOp.forward
  rw [hbatch]

theorem nonMaxSupressionOp_ignores_inputs_witness :
    @NonMaxSupressionOp.forward Nat (fun s a _ => (a + s + 2, s + 1))
        (fun s _ _ n => (List.replicate n 0, s + 3)) 0
        ⟨[5, 4], fun _ => 9⟩ ⟨[2, 3], fun _ => 1⟩ ⟨[1], fun _ => 100⟩
        ⟨[1], fun _ => 45 / 100⟩ ⟨[1], fun _ => 35 / 100⟩ =
      @NonMaxSupressionOp.forward Nat (fun s a _ => (a + s + 2, s + 1))
        (fun s _ _ n => (List.replicate n 0, s + 3)) 0
        ⟨[6, 7], fun _ => 3⟩ ⟨[2], fun _ => 8⟩ ⟨[1], fun _ => 200⟩
        ⟨[1], fun _ => 1 / 2⟩ ⟨[1], fun _ => 1 / 4⟩ :=
  nonMaxSupressionOp_ignores_inputs _ _ _ _ _ _ _ _ _ _ _ _ _ rfl

/-!
### `FakePostProcess`
-/

/-- C4: `FakePostProcess.forward` raises an exception for every input
tensor and every tensor semantics: its first statement calls `x.device()`
although a tensor's `device` is a non-callable attribute (`TypeError`), and
the later reads of `self.iou_thresh` and `self.score_thresh` would
themselves raise `AttributeError` because the constructor only stored
`iou_threshold` and `score_threshold`; the return statement is therefore
unreachable for every input. -/
theorem fakePostProcess_forward_raises {T : Type} (ops : TensorOps T)
    (size : Nat) (iou_thresh score_thresh : Rat) (detections_per_img : Nat)
    (x : T) :
    FakePostProcess.forward ops
        (FakePostProcess.init size iou_thresh score_thresh detections_per_img)
        x =
      .error (.typeError "torch.device object is not callable") ∧
    FakePostProcess.getattro
        (FakePostProcess.init size iou_thresh score_thresh detections_per_img)
        "iou_thresh" =
      .error (.attributeError "iou_thresh") ∧
    FakePostProcess.getattro
        (FakePostProcess.init size iou_thresh score_thresh detections_per_img)
        "score_thresh" =
      .error (.attributeError "score_thresh") :=
  ⟨rfl, rfl, rfl⟩

/-!
### TensorRT post-processing
-/

theorem getD_mem_of_lt {α : Type} (l : List α) :
    ∀ (j : Nat) (d : α), j < l.length → l.getD j d ∈ l := by
  induction l with
  | nil => intro j d h; simp at h
  | cons a l ih =>
    intro j d h
    cases j with
    | zero => exact List.Mem.head _
    | succ j => exact List.Mem.tail _ (ih j d (by simpa using h))

theorem enumFrom_get {α : Type} (l : List α) :
    ∀ (k : Nat) (q : Nat × α), q ∈ l.enumFrom k →
      k ≤ q.1 ∧ l.get? (q.1 - k) = some q.2 := by
  induction l with
  | nil => intro k q h; simp at h
  | cons a l ih =>
    intro k q h
    rw [show List.enumFrom k (a :: l) = (k, a) :: List.enumFrom (k + 1) l
      from rfl] at h
    cases h with
    | head =>
      refine ⟨le_refl k, ?_⟩
      simp
    | tail _ h' =>
      obtain ⟨hle, hget⟩ := ih (k + 1) q h'
      refine ⟨by omega, ?_⟩
      have hidx : q.1 - k = (q.1 - (k + 1)) + 1 := by omega
      rw [hidx]
      simpa using hget

theorem mem_whereGT (scores : List (List Rat)) (t : Rat) (p : Nat × Nat)
    (hp : p ∈ whereGT scores t) :
    t < (scores.getD p.1 []).getD p.2 0 := by
  unfold whereGT at hp
  rw [List.mem_flatten] at hp
  obtain ⟨inner, hin, hpin⟩ := hp
  rw [List.mem_map] at hin
  obtain ⟨q, hq, rfl⟩ := hin
  rw [List.mem_filterMap] at hpin
  obtain ⟨r, hr, hres⟩ := hpin
  by_cases hc : t < r.2
  · rw [if_pos hc] at hres
    obtain rfl := Option.some_inj.mp hres
    obtain ⟨-, hq2⟩ := enumFrom_get scores 0 q hq
    rw [Nat.sub_zero] at hq2
    obtain ⟨-, hr2⟩ := enumFrom_get q.2 0 r hr
    rw [Nat.sub_zero] at hr2
    have hout : scores.getD q.1 [] = q.2 := by
      rw [List.getD_eq_getElem?_getD, ← List.get?_eq_getElem?, hq2]
      rfl
    have hinn : (q.2).getD r.1 0 = r.2 := by
      rw [List.getD_eq_getElem?_getD, ← List.get?_eq_getElem?, hr2]
      rfl
    rw [hout, hinn]
    exact hc
  · rw [if_neg hc] at hres
    exact Option.noConfusion hres

theorem foldl_append_sublist (cond : List Nat → Nat → Bool)
    (order : List Nat) :
    ∀ kept : List Nat,
      ∃ rest,
        order.foldl (fun ks i => if cond ks i then ks ++ [i] else ks) kept =
          kept ++ rest ∧ rest.Sublist order := by
  induction order with
  | nil =>
    intro kept
    exact ⟨[], (List.append_nil kept).symm, List.Sublist.refl []⟩
  | cons i os ih =>
    intro kept
    rw [List.foldl_cons]
    by_cases hc : cond kept i
    · rw [if_pos hc]
      obtain ⟨rest, heq, hsub⟩ := ih (kept ++ [i])
      refine ⟨i :: rest, ?_, List.Sublist.cons₂ i hsub⟩
      rw [heq, List.append_assoc]
      rfl
    · rw [if_neg hc]
      obtain ⟨rest, heq, hsub⟩ := ih kept
      exact ⟨rest, heq, List.Sublist.cons i hsub⟩

theorem foldl_greedy_pairwise (C : Nat → Nat → Prop)
    (cond : List Nat → Nat → Bool)
    (hcond : ∀ ks i, cond ks i = true → ∀ j ∈ ks, C j i)
    (order : List Nat) :
    ∀ kept : List Nat, kept.Pairwise C →
      (order.foldl (fun ks i => if cond ks i then ks ++ [i] else ks)
        kept).Pairwise C := by
  induction order with
  | nil => intro kept h; exact h
  | cons i os ih =>
    intro kept h
    rw [List.foldl_cons]
    by_cases hc : cond kept i
    · rw [if_pos hc]
      refine ih _ ?_
      rw [List.pairwise_append]
      refine ⟨h, List.pairwise_singleton C i, ?_⟩
      intro a ha b hb
      rw [List.mem_singleton] at hb
      rw [hb]
      exact hcond kept i hc a ha
    · rw [if_neg hc]
      exact ih _ h

theorem nms_ok_spec (boxes : List Box) (labels : List Nat) (it : Rat)
    (ks : List Nat) (i : Nat) (h : nms_ok boxes labels it ks i = true) :
    ∀ j ∈ ks, labels.getD j 0 = labels.getD i 0 →
      iou (boxes.getD j ⟨0, 0, 0, 0⟩) (boxes.getD i ⟨0, 0, 0, 0⟩) ≤ it := by
  intro j hj heq
  unfold nms_ok at h
  rw [List.all_eq_true] at h
  rcases of_decide_eq_true (h j hj) with hne | hle
  · exact absurd heq hne
  · exact hle

theorem batched_nms_spec (boxes : List Box) (scores : List Rat)
    (labels : List Nat) (it : Rat) :
    List.Pairwise (fun i j => scores.getD j 0 ≤ scores.getD i 0)
      (batched_nms boxes scores labels it) ∧
    List.Pairwise (fun i j => labels.getD i 0 = labels.getD j 0 →
      iou (boxes.getD i ⟨0, 0, 0, 0⟩) (boxes.getD j ⟨0, 0, 0, 0⟩) ≤ it)
      (batched_nms boxes scores labels it) ∧
    ∀ i ∈ batched_nms boxes scores labels it, i < boxes.length := by
  have hsorted_order : List.Sorted
      (fun i j => scores.getD j 0 ≤ scores.getD i 0)
      (nms_order scores boxes.length) := by
    letI : IsTotal Nat (fun i j => scores.getD j 0 ≤ scores.getD i 0) :=
      ⟨fun a b => le_total (scores.getD b 0) (scores.getD a 0)⟩
    letI : IsTrans Nat (fun i j => scores.getD j 0 ≤ scores.getD i 0) :=
      ⟨fun a b c hab hbc => le_trans hbc hab⟩
    exact List.sorted_insertionSort _ _
  obtain ⟨rest, heq, hsub⟩ := foldl_append_sublist
    (nms_ok boxes labels it) (nms_order scores boxes.length) []
  have hkeep : batched_nms boxes scores labels it = rest := by
    unfold batched_nms
    rw [heq]
    rfl
  refine ⟨?_, ?_, ?_⟩
  · rw [hkeep]
    exact hsorted_order.sublist hsub
  · have := foldl_greedy_pairwise
      (fun i j => labels.getD i 0 = labels.getD j 0 →
        iou (boxes.getD i ⟨0, 0, 0, 0⟩) (boxes.getD j ⟨0, 0, 0, 0⟩) ≤ it)
      (nms_ok boxes labels it) (nms_ok_spec boxes labels it)
      (nms_order scores boxes.length) [] List.Pairwise.nil
    exact this
  · intro i hi
    rw [hkeep] at hi
    have hmem : i ∈ nms_order scores boxes.length := hsub.subset hi
    have hperm := List.perm_insertionSort
      (fun i j => scores.getD j 0 ≤ scores.getD i 0)
      (List.range boxes.length)
    rw [List.mem_range.symm]
    exact hperm.mem_iff.mp hmem

theorem cand_scores_gt (st : Rat) (pl : List (List Rat)) :
    ∀ s ∈ cand_scores st pl, st < s := by
  intro s hs
  rw [cand_scores, List.mem_map] at hs
  obtain ⟨p, hp, rfl⟩ := hs
  exact mem_whereGT _ _ _ hp

theorem postprocess_image_spec (st it : Rat) (k : Nat)
    (pl : List (List Rat)) :
    (postprocess_image st it k pl).scores.length ≤ k ∧
    (postprocess_image st it k pl).labels.length =
      (postprocess_image st it k pl).scores.length ∧
    (postprocess_image st it k pl).boxes.length =
      (postprocess_image st it k pl).scores.length ∧
    (∀ s ∈ (postprocess_image st it k pl).scores, st < s) ∧
    List.Sorted (fun a b => b ≤ a) (postprocess_image st it k pl).scores ∧
    ((postprocess_image st it k pl).boxes.zip
        (postprocess_image st it k pl).labels).Pairwise
      (fun a b => a.2 = b.2 → iou a.1 b.1 ≤ it) ∧
    (postprocess_image st it k pl).scores =
      ((batched_nms (cand_boxes st pl) (cand_scores st pl)
          (cand_labels st pl) it).take k).map
        (fun j => (cand_scores st pl).getD j 0) ∧
    ∀ j ∈ (batched_nms (cand_boxes st pl) (cand_scores st pl)
        (cand_labels st pl) it).drop k,
      ∀ s ∈ (postprocess_image st it k pl).scores,
        (cand_scores st pl).getD j 0 ≤ s := by
  obtain ⟨hsorted, hcompat, hmem⟩ := batched_nms_spec (cand_boxes st pl)
    (cand_scores st pl) (cand_labels st pl) it
  have hkeep_sub : List.Sublist (keep_inds st it k pl)
      (batched_nms (cand_boxes st pl) (cand_scores st pl)
        (cand_labels st pl) it) := List.take_sublist _ _
  have hkeep_lt : ∀ j ∈ keep_inds st it k pl,
      j < (cand_scores st pl).length := by
    intro j hj
    have hb := hmem j (hkeep_sub.subset hj)
    rw [cand_boxes, List.length_map] at hb
    rw [cand_scores, List.length_map]
    exact hb
  refine ⟨?_, ?_, ?_, ?_, ?_, ?_, rfl, ?_⟩
  · show ((keep_inds st it k pl).map _).length ≤ k
    rw [List.length_map]
    exact List.length_take_le _ _
  · show ((keep_inds st it k pl).map _).length =
      ((keep_inds st it k pl).map _).length
    rw [List.length_map, List.length_map]
  · show ((keep_inds st it k pl).map _).length =
      ((keep_inds st it k pl).map _).length
    rw [List.length_map, List.length_map]
  · intro s hs
    rw [show (postprocess_image st it k pl).scores =
      (keep_inds st it k pl).map
        (fun j => (cand_scores st pl).getD j 0) from rfl] at hs
    rw [List.mem_map] at hs
    obtain ⟨j, hj, rfl⟩ := hs
    exact cand_scores_gt st pl _
      (getD_mem_of_lt (cand_scores st pl) j 0 (hkeep_lt j hj))
  · show List.Sorted (fun a b => b ≤ a) ((keep_inds st it k pl).map
      (fun j => (cand_scores st pl).getD j 0))
    exact List.pairwise_map.mpr (hsorted.sublist hkeep_sub)
  · show (((keep_inds st it k pl).map
        (fun j => (cand_boxes st pl).getD j ⟨0, 0, 0, 0⟩)).zip
      ((keep_inds st it k pl).map
        (fun j => (cand_labels st pl).getD j 0))).Pairwise
      (fun a b => a.2 = b.2 → iou a.1 b.1 ≤ it)
    rw [List.zip_map']
    exact List.pairwise_map.mpr (hcompat.sublist hkeep_sub)
  · intro j hj s hs
    rw [show (postprocess_image st it k pl).scores =
      (keep_inds st it k pl).map
        (fun j => (cand_scores st pl).getD j 0) from rfl] at hs
    rw [List.mem_map] at hs
    obtain ⟨j1, hj1, rfl⟩ := hs
    have hsplit := List.take_append_drop k
      (batched_nms (cand_boxes st pl) (cand_scores st pl)
        (cand_labels st pl) it)
    have hpw : List.Pairwise
        (fun i j => (cand_scores st pl).getD j 0 ≤ (cand_scores st pl).getD i 0)
        ((batched_nms (cand_boxes st pl) (cand_scores st pl)
            (cand_labels st pl) it).take k ++
          (batched_nms (cand_boxes st pl) (cand_scores st pl)
            (cand_labels st pl) it).drop k) := by
      rw [hsplit]
      exact hsorted
    exact (List.pairwise_append.mp hpw).2.2 j1 hj1 j hj

/-- C7: for every prediction tensor, `PredictorTRT.postprocessing` returns
one detection dictionary per batch image (the map of the per-image step);
each holds at most `detections_per_img` detections, every kept combined
score (class score times objectness) is strictly above `score_thresh`, and
any two kept detections of the same class overlap by at most `iou_thresh`.
The kept detections are the top-scoring survivors of the class-aware NMS:
they are exactly the first `detections_per_img` survivors in decreasing
score order, and every discarded survivor scores no higher than any kept
detection. -/
theorem postprocessing_spec (score_thresh iou_thresh : Rat)
    (detections_per_img : Nat) (pred_logits : List (List (List Rat))) :
    (postprocessing score_thresh iou_thresh detections_per_img
        pred_logits).length = pred_logits.length ∧
    (∀ d ∈ postprocessing score_thresh iou_thresh detections_per_img
        pred_logits,
      d.scores.length ≤ detections_per_img ∧
      d.labels.length = d.scores.length ∧
      d.boxes.length = d.scores.length ∧
      (∀ s ∈ d.scores, score_thresh < s) ∧
      List.Sorted (fun a b => b ≤ a) d.scores ∧
      (d.boxes.zip d.labels).Pairwise
        (fun a b => a.2 = b.2 → iou a.1 b.1 ≤ iou_thresh)) ∧
    postprocessing score_thresh iou_thresh detections_per_img pred_logits =
      pred_logits.map
        (postprocess_image score_thresh iou_thresh detections_per_img) ∧
    ∀ pl ∈ pred_logits,
      (postprocess_image score_thresh iou_thresh detections_per_img
          pl).scores =
        ((batched_nms (cand_boxes score_thresh pl)
            (cand_scores score_thresh pl) (cand_labels score_thresh pl)
            iou_thresh).take detections_per_img).map
          (fun j => (cand_scores score_thresh pl).getD j 0) ∧
      ∀ j ∈ (batched_nms (cand_boxes score_thresh pl)
          (cand_scores score_thresh pl) (cand_labels score_thresh pl)
          iou_thresh).drop detections_per_img,
        ∀ s ∈ (postprocess_image score_thresh iou_thresh detections_per_img
            pl).scores,
          (cand_scores score_thresh pl).getD j 0 ≤ s := by
  refine ⟨List.length_map _ _, ?_, rfl, ?_⟩
  · intro d hd
    rw [postprocessing, List.mem_map] at hd
    obtain ⟨pl, hpl, rfl⟩ := hd
    obtain ⟨h1, h2, h3, h4, h5, h6, -, -⟩ :=
      postprocess_image_spec score_thresh iou_thresh detections_per_img pl
    exact ⟨h1, h2, h3, h4, h5, h6⟩
  · intro pl hpl
    obtain ⟨-, -, -, -, -, -, h7, h8⟩ :=
      postprocess_image_spec score_thresh iou_thresh detections_per_img pl
    exact ⟨h7, h8⟩

end Yolort
